import Mathlib

/-!
Verification development for `scripts/add_verification_dates.py`
(baytides/bayareadiscounts): a batch updater that reads every `*.yml`
file in two fixed directories, parses it with `yaml.safe_load`, stamps
`verified_date` onto every mapping record, and writes the document back
with `yaml.dump(..., default_flow_style=False, allow_unicode=True,
sort_keys=False)`.

The embedding below models YAML documents as an inductive value type,
Python `dict` lookup/assignment as ordered association-list operations,
and the script's per-record, per-document, per-file and per-directory
processing as total functions.  Failure modes of the Python runtime
(`TypeError`/`AttributeError` on non-iterables, parse errors) are
modelled with `Option`.
-/

namespace AddVerificationDates

/-- A parsed YAML value as produced by `yaml.safe_load`: Python `None`,
`bool`, `int`, `str`, `list` and (insertion-ordered) `dict`. -/
inductive Yaml where
  | nul : Yaml
  | bool (b : Bool) : Yaml
  | int (n : Int) : Yaml
  | str (s : String) : Yaml
  | seq (xs : List Yaml) : Yaml
  | map (kvs : List (String × Yaml)) : Yaml

/-- `today = "2025-12-16"` — the hardcoded constant at line 7 of the script. -/
def today : String := "2025-12-16"

/-- The date named in the script's docstring (line 2:
`Add verification_date: 2025-12-17 to all programs`), which differs from
the constant actually assigned. -/
def docstringDate : String := "2025-12-17"

/-- Python `d.get(k)` / `d[k]` lookup on an insertion-ordered dict:
first (only, for a genuine dict) binding of the key. -/
def pyGet : List (String × Yaml) → String → Option Yaml
  | [], _ => none
  | kv :: kvs, k => if kv.1 = k then some kv.2 else pyGet kvs k

/-- Python `d[k] = v` on an insertion-ordered dict: overwrite the value
in place if the key is present (keeping its position), otherwise append
the new binding at the end. -/
def setKey : List (String × Yaml) → String → Yaml → List (String × Yaml)
  | [], k, v => [(k, v)]
  | kv :: kvs, k, v => if kv.1 = k then (k, v) :: kvs else kv :: setKey kvs k v

/-- Whether a YAML value is a Python `dict` (`isinstance(program, dict)`). -/
def Yaml.isDict : Yaml → Bool
  | .map _ => true
  | _ => false

/-- Python truthiness test `not data` (line 27): `None`, `False`, `0`,
`""`, `[]` and an empty dict are falsy. -/
def pyFalsy : Yaml → Bool
  | .nul => true
  | .bool b => !b
  | .int n => n == 0
  | .str s => s.isEmpty
  | .seq xs => xs.isEmpty
  | .map kvs => kvs.isEmpty

/-- Body of the per-record loop (lines 33–37): if the element is a dict,
set its `verified_date` field to `today` and count it (`total += 1`);
otherwise leave it alone and count nothing. -/
def updateProgram (p : Yaml) : Yaml × Nat :=
  match p with
  | .map kvs => (.map (setKey kvs "verified_date" (.str today)), 1)
  | p => (p, 0)

/-- The whole `for program in programs` loop over a Python list: each
element updated in place, counts summed into the running total. -/
def updatePrograms (ps : List Yaml) : List Yaml × Nat :=
  (ps.map (fun p => (updateProgram p).1), (ps.map (fun p => (updateProgram p).2)).sum)

/-- Per-document processing (lines 31–37 plus the in-place aliasing of
the write-back): `programs = data if isinstance(data, list) else
data.get('programs', [])`, then the record loop.  Iterating a dict
yields its keys (strings, never dicts: nothing mutated, nothing
counted); iterating a string yields its characters (likewise); iterating
`None`/`bool`/`int` raises `TypeError`, and calling `.get` on a
non-dict, non-list document raises `AttributeError` — both modelled as
`none`.  Returns the mutated document and the count added to `total`. -/
def processDoc : Yaml → Option (Yaml × Nat)
  | .seq xs =>
    let r := updatePrograms xs
    some (.seq r.1, r.2)
  | .map kvs =>
    match pyGet kvs "programs" with
    | none => some (.map kvs, 0)
    | some (.seq ps) =>
      let r := updatePrograms ps
      some (.map (setKey kvs "programs" (.seq r.1)), r.2)
    | some (.map _) => some (.map kvs, 0)
    | some (.str _) => some (.map kvs, 0)
    | some _ => none
  | _ => none

/-- Per-file processing (lines 21–44), abstracted over the YAML parser
and emitter: read the content, parse it (`none` models a parse
exception aborting the run; a parsed empty document is `Yaml.nul`), skip
the file before any write if the document is falsy (`if not data:
continue`), otherwise run the record loop and overwrite the file with
the re-serialized document.  Returns the file's new content and its
contribution to `total`. -/
def processContent (parse : String → Option Yaml) (dump : Yaml → String)
    (c : String) : Option (String × Nat) :=
  match parse c with
  | none => none
  | some d =>
    if pyFalsy d then some (c, 0)
    else
      match processDoc d with
      | none => none
      | some (d', n) => some (dump d', n)

/-- One of the configured data directories: whether it exists on disk,
and the contents of its `*.yml` files in glob order. -/
structure Dir where
  present : Bool
  files : List String

/-- Process the files of one directory in order, accumulating the new
contents and the total count; any per-file failure aborts the run. -/
def processFiles (parse : String → Option Yaml) (dump : Yaml → String) :
    List String → Option (List String × Nat)
  | [] => some ([], 0)
  | c :: cs =>
    match processContent parse dump c with
    | none => none
    | some (c', n) =>
      match processFiles parse dump cs with
      | none => none
      | some (cs', m) => some (c' :: cs', n + m)

/-- Per-directory processing (lines 14–16): a directory that does not
exist is skipped (`if not data_dir.exists(): continue`) and contributes
nothing; otherwise its files are processed in order. -/
def processDir (parse : String → Option Yaml) (dump : Yaml → String)
    (d : Dir) : Option (Dir × Nat) :=
  if d.present then
    match processFiles parse dump d.files with
    | none => none
    | some (fs, n) => some (⟨true, fs⟩, n)
  else some (d, 0)

/-- The outer `for data_dir in data_dirs` loop: process each configured
directory in order, summing the reported total. -/
def runDirs (parse : String → Option Yaml) (dump : Yaml → String) :
    List Dir → Option (List Dir × Nat)
  | [] => some ([], 0)
  | d :: ds =>
    match processDir parse dump d with
    | none => none
    | some (d', n) =>
      match runDirs parse dump ds with
      | none => none
      | some (ds', m) => some (d' :: ds', n + m)

/-- Whether a YAML value is rendered inline as a scalar by the emitter
(everything but a sequence or a mapping). -/
def Yaml.isScalar : Yaml → Bool
  | .seq _ => false
  | .map _ => false
  | _ => true

/-- Scalar text of a YAML value: strings are written out literally
(`allow_unicode=True` keeps non-ASCII characters unescaped). -/
def scalarText : Yaml → String
  | .nul => "null"
  | .bool true => "true"
  | .bool false => "false"
  | .int n => toString n
  | .str s => s
  | _ => ""

/-- `n` spaces of indentation. -/
def indentStr (n : Nat) : String := String.mk (List.replicate n ' ')

mutual
/-- Modelled from the spec: the YAML emitter invoked at lines 41/43 is
`yaml.dump(data, f, default_flow_style=False, allow_unicode=True,
sort_keys=False)` — library code not in `src/`.  Per the spec it writes
block (indentation-based, non-flow) style, keeps every mapping's key
insertion order (no alphabetical re-sorting), and writes non-ASCII
characters literally.  `dumpLines i y` is the list of output lines for
`y` at indent `i`; only empty containers fall back to the flow tokens
`[]` / `\x7b\x7d`. -/
def dumpLines (i : Nat) : Yaml → List String
  | .nul => [indentStr i ++ scalarText .nul]
  | .bool b => [indentStr i ++ scalarText (.bool b)]
  | .int n => [indentStr i ++ scalarText (.int n)]
  | .str s => [indentStr i ++ scalarText (.str s)]
  | .seq [] => [indentStr i ++ "[]"]
  | .seq (x :: xs) => dumpSeqItems i (x :: xs)
  | .map [] => [indentStr i ++ "\x7b\x7d"]
  | .map (kv :: kvs) => dumpMapItems i (kv :: kvs)

/-- Block-style lines of the items of a non-empty sequence: a scalar
item is `- item` on one line; a nested container starts on its own `-`
line and continues indented two further spaces. -/
def dumpSeqItems (i : Nat) : List Yaml → List String
  | [] => []
  | x :: xs =>
    (if x.isScalar then [indentStr i ++ "- " ++ scalarText x]
     else (indentStr i ++ "-") :: dumpLines (i + 2) x) ++ dumpSeqItems i xs

/-- Block-style lines of the entries of a non-empty mapping, in
insertion order: a scalar value is `key: value` on one line; a nested
container follows its `key:` line indented two further spaces. -/
def dumpMapItems (i : Nat) : List (String × Yaml) → List String
  | [] => []
  | (k, v) :: kvs =>
    (if v.isScalar then [indentStr i ++ k ++ ": " ++ scalarText v]
     else (indentStr i ++ k ++ ":") :: dumpLines (i + 2) v) ++ dumpMapItems i kvs
end

/-- Full serialized text of a document: its lines, each newline-terminated. -/
def dumpDoc (y : Yaml) : String :=
  String.join ((dumpLines 0 y).map (fun l => l ++ "\n"))

/-- The `verified_date` field of a record, when the record is a mapping. -/
def verifiedDateOf (y : Yaml) : Option Yaml :=
  match y with
  | .map kvs => pyGet kvs "verified_date"
  | _ => none

/-- A character is flow-free when it is none of the flow-style
indicator characters `\x7b`, `\x7d`, `[`, `]` (codepoints 123, 125,
91, 93). -/
def flowFreeChar (c : Char) : Bool :=
  !(c.toNat == 123 || c.toNat == 125 || c.toNat == 91 || c.toNat == 93)

/-- A string is flow-free when every character is. -/
def flowFreeStr (s : String) : Bool := s.data.all flowFreeChar

/-! ### Lemmas about the dict operations -/

theorem pyGet_setKey_self (kvs : List (String × Yaml)) (k : String) (v : Yaml) :
    pyGet (setKey kvs k v) k = some v := by
  induction kvs with
  | nil => simp [setKey, pyGet]
  | cons kv kvs ih =>
    by_cases h : kv.1 = k
    · simp [setKey, h, pyGet]
    · simp [setKey, h, pyGet, ih]

theorem pyGet_setKey_ne (kvs : List (String × Yaml)) (k k' : String) (v : Yaml)
    (h : k' ≠ k) : pyGet (setKey kvs k v) k' = pyGet kvs k' := by
  induction kvs with
  | nil => simp [setKey, pyGet, Ne.symm h]
  | cons kv kvs ih =>
    by_cases hk : kv.1 = k
    · subst hk
      simp [setKey, pyGet, Ne.symm h]
    · simp [setKey, hk, pyGet, ih]

theorem setKey_setKey (kvs : List (String × Yaml)) (k : String) (v v' : Yaml) :
    setKey (setKey kvs k v) k v' = setKey kvs k v' := by
  induction kvs with
  | nil => simp [setKey]
  | cons kv kvs ih =>
    by_cases h : kv.1 = k
    · simp [setKey, h]
    · simp [setKey, h, ih]

theorem setKey_ne_nil (kvs : List (String × Yaml)) (k : String) (v : Yaml) :
    setKey kvs k v ≠ [] := by
  cases kvs with
  | nil => simp [setKey]
  | cons kv kvs =>
    by_cases h : kv.1 = k <;> simp [setKey, h]

theorem setKey_length (kvs : List (String × Yaml)) (k : String) (v : Yaml) :
    (setKey kvs k v).length = if (pyGet kvs k).isSome then kvs.length else kvs.length + 1 := by
  induction kvs with
  | nil => simp [setKey, pyGet]
  | cons kv kvs ih =>
    by_cases h : kv.1 = k
    · simp [setKey, h, pyGet]
    · simp [setKey, h, pyGet, ih]
      by_cases hs : (pyGet kvs k).isSome <;> simp [hs]

/-! ### Lemmas about the record-update loop -/

theorem updateProgram_of_not_dict (p : Yaml) (h : p.isDict = false) :
    updateProgram p = (p, 0) := by
  cases p <;> simp_all [updateProgram, Yaml.isDict]

theorem updateProgram_idem (p : Yaml) :
    updateProgram (updateProgram p).1 = updateProgram p := by
  cases p <;> simp [updateProgram, setKey_setKey]

theorem updateProgram_verifiedDate (p : Yaml) (h : p.isDict = true) :
    verifiedDateOf (updateProgram p).1 = some (.str today) := by
  cases p <;> simp_all [updateProgram, Yaml.isDict, verifiedDateOf, pyGet_setKey_self]

theorem updatePrograms_length (ps : List Yaml) :
    (updatePrograms ps).1.length = ps.length := by
  simp [updatePrograms]

theorem updatePrograms_idem (ps : List Yaml) :
    updatePrograms (updatePrograms ps).1 = updatePrograms ps := by
  have h1 : ∀ p, (updateProgram (updateProgram p).1).1 = (updateProgram p).1 :=
    fun p => congrArg Prod.fst (updateProgram_idem p)
  have h2 : ∀ p, (updateProgram (updateProgram p).1).2 = (updateProgram p).2 :=
    fun p => congrArg Prod.snd (updateProgram_idem p)
  simp only [updatePrograms, List.map_map, Function.comp_def, h1, h2]

theorem updatePrograms_append (l r : List Yaml) :
    updatePrograms (l ++ r) =
      ((updatePrograms l).1 ++ (updatePrograms r).1,
       (updatePrograms l).2 + (updatePrograms r).2) := by
  simp [updatePrograms]

theorem updatePrograms_count_all_dict (ps : List Yaml) (h : ∀ x ∈ ps, x.isDict = true) :
    (updatePrograms ps).2 = ps.length := by
  induction ps with
  | nil => simp [updatePrograms]
  | cons p ps ih =>
    have hp : (updateProgram p).2 = 1 := by
      have := h p (List.mem_cons_self p ps)
      cases p <;> simp_all [updateProgram, Yaml.isDict]
    have ihh := ih (fun x hx => h x (List.mem_cons_of_mem p hx))
    simp only [updatePrograms] at ihh
    simp only [updatePrograms, List.map_cons, List.sum_cons, hp, ihh, List.length_cons]
    omega

theorem updatePrograms_all_stamped (ps : List Yaml) (h : ∀ x ∈ ps, x.isDict = true) :
    ∀ y ∈ (updatePrograms ps).1, verifiedDateOf y = some (.str today) := by
  intro y hy
  simp only [updatePrograms, List.mem_map] at hy
  obtain ⟨x, hx, rfl⟩ := hy
  exact updateProgram_verifiedDate x (h x hx)

theorem updatePrograms_all_not_dict (ps : List Yaml) (h : ∀ x ∈ ps, x.isDict = false) :
    updatePrograms ps = (ps, 0) := by
  induction ps with
  | nil => simp [updatePrograms]
  | cons p ps ih =>
    have hp := updateProgram_of_not_dict p (h p (List.mem_cons_self p ps))
    have ihh := ih (fun x hx => h x (List.mem_cons_of_mem p hx))
    simp only [updatePrograms, Prod.mk.injEq] at ihh ⊢
    simp [List.map_cons, List.sum_cons, hp, ihh.1, ihh.2]

/-! ### Lemmas about per-document processing -/

theorem processDoc_seq (xs : List Yaml) :
    processDoc (.seq xs) = some (.seq (updatePrograms xs).1, (updatePrograms xs).2) := rfl

theorem processDoc_idem (d d' : Yaml) (n : Nat) (h : processDoc d = some (d', n)) :
    processDoc d' = some (d', n) := by
  cases d with
  | nul => simp [processDoc] at h
  | bool b => simp [processDoc] at h
  | int m => simp [processDoc] at h
  | str s => simp [processDoc] at h
  | seq xs =>
    simp only [processDoc, Option.some.injEq, Prod.mk.injEq] at h
    obtain ⟨hd, hn⟩ := h
    subst hd hn
    simp [processDoc, updatePrograms_idem]
  | map kvs =>
    cases hg : pyGet kvs "programs" with
    | none =>
      simp only [processDoc, hg, Option.some.injEq, Prod.mk.injEq] at h
      obtain ⟨hd, hn⟩ := h
      subst hd hn
      simp [processDoc, hg]
    | some v =>
      cases v with
      | nul => simp [processDoc, hg] at h
      | bool b => simp [processDoc, hg] at h
      | int m => simp [processDoc, hg] at h
      | str s =>
        simp only [processDoc, hg, Option.some.injEq, Prod.mk.injEq] at h
        obtain ⟨hd, hn⟩ := h
        subst hd hn
        simp [processDoc, hg]
      | map m =>
        simp only [processDoc, hg, Option.some.injEq, Prod.mk.injEq] at h
        obtain ⟨hd, hn⟩ := h
        subst hd hn
        simp [processDoc, hg]
      | seq ps =>
        simp only [processDoc, hg, Option.some.injEq, Prod.mk.injEq] at h
        obtain ⟨hd, hn⟩ := h
        subst hd hn
        simp [processDoc, pyGet_setKey_self, setKey_setKey, updatePrograms_idem]

theorem processDoc_not_falsy (d d' : Yaml) (n : Nat) (h : processDoc d = some (d', n))
    (hf : pyFalsy d = false) : pyFalsy d' = false := by
  cases d with
  | nul => simp [processDoc] at h
  | bool b => simp [processDoc] at h
  | int m => simp [processDoc] at h
  | str s => simp [processDoc] at h
  | seq xs =>
    simp only [processDoc, Option.some.injEq, Prod.mk.injEq] at h
    obtain ⟨hd, _⟩ := h
    subst hd
    simp only [pyFalsy] at hf ⊢
    cases xs with
    | nil => simp at hf
    | cons x xs => simp [updatePrograms]
  | map kvs =>
    cases hg : pyGet kvs "programs" with
    | none =>
      simp only [processDoc, hg, Option.some.injEq, Prod.mk.injEq] at h
      obtain ⟨hd, _⟩ := h
      subst hd
      exact hf
    | some v =>
      cases v with
      | nul => simp [processDoc, hg] at h
      | bool b => simp [processDoc, hg] at h
      | int m => simp [processDoc, hg] at h
      | str s =>
        simp only [processDoc, hg, Option.some.injEq, Prod.mk.injEq] at h
        obtain ⟨hd, _⟩ := h
        subst hd
        exact hf
      | map m =>
        simp only [processDoc, hg, Option.some.injEq, Prod.mk.injEq] at h
        obtain ⟨hd, _⟩ := h
        subst hd
        exact hf
      | seq ps =>
        simp only [processDoc, hg, Option.some.injEq, Prod.mk.injEq] at h
        obtain ⟨hd, _⟩ := h
        subst hd
        simp only [pyFalsy]
        have := setKey_ne_nil kvs "programs" (.seq (updatePrograms ps).1)
        simp [this]

/-! ### Flow-style characters and the emitter's output -/

theorem flowFreeStr_append (a b : String) :
    flowFreeStr (a ++ b) = (flowFreeStr a && flowFreeStr b) := by
  simp [flowFreeStr, String.data_append, List.all_append]

theorem flowFreeStr_indentStr (n : Nat) : flowFreeStr (indentStr n) = true := by
  simp only [flowFreeStr, indentStr, List.all_eq_true]
  intro c hc
  have hcc := List.eq_of_mem_replicate hc
  subst hcc
  decide

theorem dumpMapItems_scalar (i : Nat) (kvs : List (String × Yaml))
    (h : ∀ kv ∈ kvs, kv.2.isScalar = true) :
    dumpMapItems i kvs =
      kvs.map (fun kv => indentStr i ++ kv.1 ++ ": " ++ scalarText kv.2) := by
  induction kvs with
  | nil => simp [dumpMapItems]
  | cons kv kvs ih =>
    have h1 := h kv (List.mem_cons_self kv kvs)
    obtain ⟨k, v⟩ := kv
    simp only at h1
    simp [dumpMapItems, h1, ih (fun x hx => h x (List.mem_cons_of_mem _ hx))]

theorem flowFree_dumpMapItems (i : Nat) (kvs : List (String × Yaml))
    (h : ∀ kv ∈ kvs,
      flowFreeStr kv.1 = true ∧ kv.2.isScalar = true ∧ flowFreeStr (scalarText kv.2) = true) :
    ∀ line ∈ dumpMapItems i kvs, flowFreeStr line = true := by
  induction kvs with
  | nil => simp [dumpMapItems]
  | cons kv kvs ih =>
    obtain ⟨k, v⟩ := kv
    obtain ⟨hk, hs, hv⟩ := h (k, v) (List.mem_cons_self _ _)
    intro line hline
    simp only [dumpMapItems, hs, if_true] at hline
    rcases List.mem_append.mp hline with h1 | h2
    · have hl := List.mem_singleton.mp h1
      subst hl
      simp [flowFreeStr_append, flowFreeStr_indentStr, hk, hv,
        (by decide : flowFreeStr ": " = true)]
    · exact ih (fun x hx => h x (List.mem_cons_of_mem _ hx)) line h2

theorem flowFree_dumpSeqItems (i : Nat) (records : List (List (String × Yaml)))
    (hr : ∀ rec ∈ records, rec ≠ [] ∧ ∀ kv ∈ rec,
      flowFreeStr kv.1 = true ∧ kv.2.isScalar = true ∧ flowFreeStr (scalarText kv.2) = true) :
    ∀ line ∈ dumpSeqItems i (records.map Yaml.map), flowFreeStr line = true := by
  induction records with
  | nil => simp [dumpSeqItems]
  | cons rec records ih =>
    obtain ⟨hne, hkv⟩ := hr rec (List.mem_cons_self _ _)
    intro line hline
    have hsc : (Yaml.map rec).isScalar = false := rfl
    simp only [List.map_cons, dumpSeqItems, hsc, Bool.false_eq_true, if_false,
      List.cons_append] at hline
    rcases List.mem_cons.mp hline with hl | hline2
    · subst hl
      simp [flowFreeStr_append, flowFreeStr_indentStr, (by decide : flowFreeStr "-" = true)]
    · rcases List.mem_append.mp hline2 with h1 | h2
      · cases rec with
        | nil => exact absurd rfl hne
        | cons kv kvs =>
          have hdl : dumpLines (i + 2) (Yaml.map (kv :: kvs)) = dumpMapItems (i + 2) (kv :: kvs) := by
            simp [dumpLines]
          rw [hdl] at h1
          exact flowFree_dumpMapItems (i + 2) (kv :: kvs) hkv line h1
      · exact ih (fun r hrr => hr r (List.mem_cons_of_mem _ hrr)) line h2

/-! ### The claims -/

/-- C1: for every input file whose document parses to a sequence of N
mapping records, after one run every one of the N records has its
`verified_date` field equal to the run's fixed date string (overwriting
any prior value), and the reported total is increased by exactly N. -/
theorem seq_doc_stamps_all_records (xs : List Yaml) (hm : ∀ x ∈ xs, x.isDict = true) :
    ∃ ys : List Yaml,
      processDoc (.seq xs) = some (.seq ys, xs.length) ∧
      ys.length = xs.length ∧
      (∀ y ∈ ys, verifiedDateOf y = some (.str today)) ∧
      ∀ (parse : String → Option Yaml) (dump : Yaml → String) (c : String),
        parse c = some (.seq xs) → xs ≠ [] →
        processContent parse dump c = some (dump (.seq ys), xs.length) := by
  refine ⟨(updatePrograms xs).1, ?_, updatePrograms_length xs,
    updatePrograms_all_stamped xs hm, ?_⟩
  · simp [processDoc_seq, updatePrograms_count_all_dict xs hm]
  · intro parse dump c hp hne
    have hf : pyFalsy (.seq xs) = false := by simp [pyFalsy, hne]
    simp [processContent, hp, hf, processDoc_seq, updatePrograms_count_all_dict xs hm]

/-- Witness for C1 at a concrete two-record sequence. -/
theorem seq_doc_stamps_all_records_witness :
    ∃ ys : List Yaml,
      processDoc (.seq [Yaml.map [("name", Yaml.str "A")], Yaml.map []]) = some (.seq ys, 2) ∧
      ys.length = 2 ∧
      (∀ y ∈ ys, verifiedDateOf y = some (.str today)) ∧
      ∀ (parse : String → Option Yaml) (dump : Yaml → String) (c : String),
        parse c = some (.seq [Yaml.map [("name", Yaml.str "A")], Yaml.map []]) →
        [Yaml.map [("name", Yaml.str "A")], Yaml.map []] ≠ ([] : List Yaml) →
        processContent parse dump c = some (dump (.seq ys), 2) := by
  have h := seq_doc_stamps_all_records [Yaml.map [("name", Yaml.str "A")], Yaml.map []]
    (by decide)
  simpa using h

/-- C2: for a mapping document the records processed are exactly the
elements of the value under its `programs` key; if that key is absent,
zero records are updated and zero counted, and top-level entries are
never treated as records. -/
theorem mapping_doc_reads_programs_key (kvs : List (String × Yaml)) (ps : List Yaml) :
    (pyGet kvs "programs" = none → processDoc (.map kvs) = some (.map kvs, 0)) ∧
    (pyGet kvs "programs" = some (.seq ps) →
      processDoc (.map kvs) =
        some (.map (setKey kvs "programs" (.seq (updatePrograms ps).1)),
              (updatePrograms ps).2)) := by
  constructor
  · intro hg
    simp [processDoc, hg]
  · intro hg
    simp [processDoc, hg]

/-- Witness for C2: a mapping without `programs` is untouched (its
dict-valued top-level entries are not treated as records), and a
mapping with `programs` has exactly those elements stamped. -/
theorem mapping_doc_reads_programs_key_witness :
    processDoc (.map [("meta", Yaml.map [("name", Yaml.str "x")])]) =
      some (.map [("meta", Yaml.map [("name", Yaml.str "x")])], 0) ∧
    processDoc (.map [("programs", Yaml.seq [Yaml.map []])]) =
      some (.map [("programs", Yaml.seq [Yaml.map [("verified_date", Yaml.str today)]])], 1) := by
  constructor
  · exact (mapping_doc_reads_programs_key [("meta", Yaml.map [("name", Yaml.str "x")])] []).1 rfl
  · have h := (mapping_doc_reads_programs_key
      [("programs", Yaml.seq [Yaml.map []])] [Yaml.map []]).2 rfl
    simpa [updatePrograms, updateProgram, setKey] using h

/-- C3: the fixed date string written into every record is the literal
constant `"2025-12-16"` assigned at run start, not the date stated in
the script's docstring; the worked Alpha/Beta example yields both
records containing `verified_date: '2025-12-16'` and a total of 2. -/
theorem fixed_date_constant_and_example :
    today = "2025-12-16" ∧ today ≠ docstringDate ∧
    processDoc (.seq [Yaml.map [("name", Yaml.str "Alpha")], Yaml.map [("name", Yaml.str "Beta")]]) =
      some (.seq [Yaml.map [("name", Yaml.str "Alpha"), ("verified_date", Yaml.str "2025-12-16")],
                  Yaml.map [("name", Yaml.str "Beta"), ("verified_date", Yaml.str "2025-12-16")]],
            2) := by
  refine ⟨rfl, by decide, ?_⟩
  rfl

/-- C4: running the updater twice in succession is idempotent — the
second run writes the same `verified_date` value and the serialized
file content after run two equals the content after run one — given
that parsing the emitted text returns the document that was emitted. -/
theorem second_run_is_noop (parse : String → Option Yaml) (dump : Yaml → String)
    (c : String) (d d' : Yaml) (n : Nat)
    (hp : parse c = some d) (hf : pyFalsy d = false)
    (hd : processDoc d = some (d', n)) (hrt : parse (dump d') = some d') :
    processContent parse dump c = some (dump d', n) ∧
    processContent parse dump (dump d') = some (dump d', n) := by
  have hf' := processDoc_not_falsy d d' n hd hf
  have hidem := processDoc_idem d d' n hd
  constructor
  · simp [processContent, hp, hf, hd]
  · simp [processContent, hrt, hf', hidem]

/-- Witness for C4 with a one-record sequence document and a table-based
parser that round-trips the emitted text. -/
theorem second_run_is_noop_witness :
    processContent
      (fun s => if s = "c" then some (Yaml.seq [Yaml.map []]) else
        if s = "D" then some (Yaml.seq [Yaml.map [("verified_date", Yaml.str today)]]) else none)
      (fun _ => "D") "c" = some ("D", 1) ∧
    processContent
      (fun s => if s = "c" then some (Yaml.seq [Yaml.map []]) else
        if s = "D" then some (Yaml.seq [Yaml.map [("verified_date", Yaml.str today)]]) else none)
      (fun _ => "D") "D" = some ("D", 1) :=
  second_run_is_noop
    (fun s => if s = "c" then some (Yaml.seq [Yaml.map []]) else
      if s = "D" then some (Yaml.seq [Yaml.map [("verified_date", Yaml.str today)]]) else none)
    (fun _ => "D") "c"
    (Yaml.seq [Yaml.map []]) (Yaml.seq [Yaml.map [("verified_date", Yaml.str today)]]) 1
    rfl rfl rfl rfl

/-- C5: a non-mapping element of the record sequence is left entirely
unchanged, contributes 0 to the reported total, and does not stop
processing of the remaining elements. -/
theorem non_mapping_element_skipped (l r : List Yaml) (y : Yaml) (h : y.isDict = false) :
    processDoc (.seq (l ++ y :: r)) =
      some (.seq ((updatePrograms l).1 ++ y :: (updatePrograms r).1),
            (updatePrograms l).2 + (updatePrograms r).2) := by
  have hy := updateProgram_of_not_dict y h
  simp [processDoc_seq, updatePrograms_append, updatePrograms, hy]

/-- Witness for C5: a string element between two records survives
unchanged while the records around it are still stamped and counted. -/
theorem non_mapping_element_skipped_witness :
    processDoc (.seq [Yaml.map [], Yaml.str "x", Yaml.map []]) =
      some (.seq [Yaml.map [("verified_date", Yaml.str today)], Yaml.str "x",
                  Yaml.map [("verified_date", Yaml.str today)]], 2) := by
  have h := non_mapping_element_skipped [Yaml.map []] [Yaml.map []] (Yaml.str "x") rfl
  simpa [updatePrograms, updateProgram, setKey] using h

/-- C6: a file whose content parses to an empty/absent (falsy) document
is skipped before any write, so its content is exactly the same after
the run as before it. -/
theorem empty_doc_file_untouched (parse : String → Option Yaml) (dump : Yaml → String)
    (c : String) (d : Yaml) (hp : parse c = some d) (hf : pyFalsy d = true) :
    processContent parse dump c = some (c, 0) := by
  simp [processContent, hp, hf]

/-- Witness for C6: an empty document leaves the original bytes alone. -/
theorem empty_doc_file_untouched_witness :
    processContent (fun _ => some Yaml.nul) (fun _ => "") "original bytes" =
      some ("original bytes", 0) :=
  empty_doc_file_untouched (fun _ => some Yaml.nul) (fun _ => "") "original bytes" Yaml.nul
    rfl rfl

/-- C7: a configured directory that does not exist raises no error,
processes no files, contributes 0 to the reported total, and processing
continues with the next directory. -/
theorem missing_dir_skipped (parse : String → Option Yaml) (dump : Yaml → String)
    (d : Dir) (ds : List Dir) (h : d.present = false) :
    processDir parse dump d = some (d, 0) ∧
    runDirs parse dump (d :: ds) =
      (runDirs parse dump ds).map (fun p => (d :: p.1, p.2)) := by
  have h1 : processDir parse dump d = some (d, 0) := by simp [processDir, h]
  refine ⟨h1, ?_⟩
  simp only [runDirs, h1]
  cases runDirs parse dump ds with
  | none => rfl
  | some p => cases p with | mk a b => simp

/-- Witness for C7: an absent directory before a present empty one. -/
theorem missing_dir_skipped_witness :
    processDir (fun _ => none) (fun _ => "") ⟨false, ["f"]⟩ = some (⟨false, ["f"]⟩, 0) ∧
    runDirs (fun _ => none) (fun _ => "") [⟨false, ["f"]⟩, ⟨true, []⟩] =
      (runDirs (fun _ => none) (fun _ => "") [⟨true, []⟩]).map
        (fun p => (⟨false, ["f"]⟩ :: p.1, p.2)) :=
  missing_dir_skipped (fun _ => none) (fun _ => "") ⟨false, ["f"]⟩ [⟨true, []⟩] rfl

/-- C8: the serialized output uses block (non-flow) style, emits every
mapping's entries in insertion order (no alphabetical re-sorting), and
writes non-ASCII characters literally rather than escaped. -/
theorem dump_block_ordered_unicode :
    (∀ (i : Nat) (kvs : List (String × Yaml)), (∀ kv ∈ kvs, kv.2.isScalar = true) →
      dumpMapItems i kvs =
        kvs.map (fun kv => indentStr i ++ kv.1 ++ ": " ++ scalarText kv.2)) ∧
    (∀ records : List (List (String × Yaml)),
      (∀ rec ∈ records, rec ≠ [] ∧ ∀ kv ∈ rec,
        flowFreeStr kv.1 = true ∧ kv.2.isScalar = true ∧
          flowFreeStr (scalarText kv.2) = true) →
      records ≠ [] →
      ∀ line ∈ dumpLines 0 (.seq (records.map Yaml.map)), flowFreeStr line = true) ∧
    (∀ (i : Nat) (s : String), dumpLines i (.str s) = [indentStr i ++ s]) := by
  refine ⟨dumpMapItems_scalar, ?_, ?_⟩
  · intro records hr hne line hline
    cases records with
    | nil => exact absurd rfl hne
    | cons rec rest =>
      have hdl : dumpLines 0 (.seq ((rec :: rest).map Yaml.map)) =
          dumpSeqItems 0 ((rec :: rest).map Yaml.map) := by
        simp [dumpLines]
      rw [hdl] at hline
      exact flowFree_dumpSeqItems 0 (rec :: rest) hr line hline
  · intro i s
    simp [dumpLines, scalarText]

/-- Witness for C8: insertion-order output for a deliberately
non-alphabetical mapping, flow-free block output for a one-record
document, and a literal non-ASCII scalar. -/
theorem dump_block_ordered_unicode_witness :
    (dumpMapItems 0 [("zeta", Yaml.str "é"), ("alpha", Yaml.int 1)] =
      [("zeta", Yaml.str "é"), ("alpha", Yaml.int 1)].map
        (fun kv => indentStr 0 ++ kv.1 ++ ": " ++ scalarText kv.2)) ∧
    (∀ line ∈ dumpLines 0 (.seq ([[("name", Yaml.str "café")]].map Yaml.map)),
      flowFreeStr line = true) ∧
    dumpLines 3 (.str "niño") = [indentStr 3 ++ "niño"] := by
  refine ⟨dump_block_ordered_unicode.1 0 _ (by decide), ?_,
    dump_block_ordered_unicode.2.2 3 "niño"⟩
  refine dump_block_ordered_unicode.2.1 [[("name", Yaml.str "café")]] ?_ ?_
  · intro rec hrec
    rcases List.mem_singleton.mp hrec with rfl
    exact ⟨List.cons_ne_nil _ _, by decide⟩
  · exact List.cons_ne_nil _ _

/-- C9: only the `verified_date` field of a mapping record is mutated —
every other record field keeps its prior value, and in a mapping
document every top-level key other than `programs` keeps its prior
value. -/
theorem only_verified_date_mutated (rkvs rkvs' kvs kvs' : List (String × Yaml)) (n : Nat)
    (k k' : String) (hk : k ≠ "verified_date") (hk' : k' ≠ "programs")
    (hrec : (updateProgram (.map rkvs)).1 = .map rkvs')
    (hdoc : processDoc (.map kvs) = some (.map kvs', n)) :
    pyGet rkvs' k = pyGet rkvs k ∧ pyGet kvs' k' = pyGet kvs k' := by
  constructor
  · simp only [updateProgram, Yaml.map.injEq] at hrec
    subst hrec
    exact pyGet_setKey_ne rkvs "verified_date" k (.str today) hk
  · cases hg : pyGet kvs "programs" with
    | none =>
      simp only [processDoc, hg, Option.some.injEq, Prod.mk.injEq, Yaml.map.injEq] at hdoc
      obtain ⟨hd, _⟩ := hdoc
      subst hd
      rfl
    | some v =>
      cases v with
      | nul => simp [processDoc, hg] at hdoc
      | bool b => simp [processDoc, hg] at hdoc
      | int m => simp [processDoc, hg] at hdoc
      | str s =>
        simp only [processDoc, hg, Option.some.injEq, Prod.mk.injEq, Yaml.map.injEq] at hdoc
        obtain ⟨hd, _⟩ := hdoc
        subst hd
        rfl
      | map m =>
        simp only [processDoc, hg, Option.some.injEq, Prod.mk.injEq, Yaml.map.injEq] at hdoc
        obtain ⟨hd, _⟩ := hdoc
        subst hd
        rfl
      | seq ps =>
        simp only [processDoc, hg, Option.some.injEq, Prod.mk.injEq, Yaml.map.injEq] at hdoc
        obtain ⟨hd, _⟩ := hdoc
        subst hd
        exact pyGet_setKey_ne kvs "programs" k' _ hk'

/-- Witness for C9: the `name` field of a stamped record and the
`title` entry of a mapping document are unchanged. -/
theorem only_verified_date_mutated_witness :
    pyGet [("name", Yaml.str "A"), ("verified_date", Yaml.str today)] "name" =
      pyGet [("name", Yaml.str "A"), ("verified_date", Yaml.str "old")] "name" ∧
    pyGet [("title", Yaml.str "t"), ("programs", Yaml.seq [])] "title" =
      pyGet [("title", Yaml.str "t"), ("programs", Yaml.seq [])] "title" :=
  only_verified_date_mutated
    [("name", Yaml.str "A"), ("verified_date", Yaml.str "old")]
    [("name", Yaml.str "A"), ("verified_date", Yaml.str today)]
    [("title", Yaml.str "t"), ("programs", Yaml.seq [])]
    [("title", Yaml.str "t"), ("programs", Yaml.seq [])]
    0 "name" "title" (by decide) (by decide) rfl rfl

/-- C10: a file whose content parses to a non-empty document is
overwritten with the re-serialized document even when zero records were
updated — both for a mapping document with no `programs` key and for a
sequence of only non-mapping elements. -/
theorem overwrite_even_without_updates (parse : String → Option Yaml) (dump : Yaml → String)
    (c : String) (kvs : List (String × Yaml)) (xs : List Yaml) :
    (parse c = some (.map kvs) → kvs ≠ [] → pyGet kvs "programs" = none →
      processContent parse dump c = some (dump (.map kvs), 0)) ∧
    (parse c = some (.seq xs) → xs ≠ [] → (∀ x ∈ xs, x.isDict = false) →
      processContent parse dump c = some (dump (.seq xs), 0)) := by
  constructor
  · intro hp hne hg
    have hf : pyFalsy (.map kvs) = false := by simp [pyFalsy, hne]
    simp [processContent, hp, hf, processDoc, hg]
  · intro hp hne hnd
    have hf : pyFalsy (.seq xs) = false := by simp [pyFalsy, hne]
    simp [processContent, hp, hf, processDoc_seq, updatePrograms_all_not_dict xs hnd]

/-- Witness for C10: both zero-update shapes are re-serialized with the
model emitter. -/
theorem overwrite_even_without_updates_witness :
    processContent (fun _ => some (Yaml.map [("title", Yaml.str "t")])) dumpDoc "raw" =
      some (dumpDoc (Yaml.map [("title", Yaml.str "t")]), 0) ∧
    processContent (fun _ => some (Yaml.seq [Yaml.str "x"])) dumpDoc "raw" =
      some (dumpDoc (Yaml.seq [Yaml.str "x"]), 0) :=
  ⟨(overwrite_even_without_updates (fun _ => some (Yaml.map [("title", Yaml.str "t")])) dumpDoc
      "raw" [("title", Yaml.str "t")] []).1 rfl (List.cons_ne_nil _ _) rfl,
   (overwrite_even_without_updates (fun _ => some (Yaml.seq [Yaml.str "x"])) dumpDoc
      "raw" [] [Yaml.str "x"]).2 rfl (List.cons_ne_nil _ _) (by decide)⟩

end AddVerificationDates
